import Mathlib

/-!
Verification of the `ts-turnbased` turn engine (`src/game.ts`, `src/errors.ts`)
and of its dice-guessing test game (`src/test/simple_game.ts`).

The TypeScript classes are shallowly embedded: the engine's mutable fields
(`pendingMoves`, `updates`) become an explicit `EngineState` record threaded
through the operations, the abstract methods of the `Game` class become a
record of functions (`GameImpl`), thrown exceptions become `Except` errors,
and a JavaScript `Map` becomes an insertion-ordered association list with
distinct keys.
-/

namespace TBG

/-- Model of `Player` in `game.ts` is an arbitrary JS number; only integers occur
(including the out-of-range spectator value -1). -/
abbrev Player := Int

/-- The `Update<PU, PR>` interface of `game.ts`.  The optional fields
`winners?` and `privateInfo?` become `Option`s. -/
structure Update (PU PR : Type) where
  publicInfo : PU
  toPlay : List Player
  winners : Option (List Player)
  privateInfo : Option (List PR)
deriving DecidableEq, Repr

/-- The error classes of `errors.ts`, carrying exactly the data the
throw sites pass to each constructor.

`errors.ts` declares `OutOfTurnError(move, player, reason)`, but every throw
site in `Game.playMove` constructs it with only two arguments,
`new OutOfTurnError(player, "...")`: the submitted move is never supplied and
the player id occupies the constructor's first (`move`) parameter.  The
`outOfTurn` constructor therefore carries only the player and the reason.

The `start`/`getLatestUpdate` lifecycle failures in `game.ts` are thrown as
plain `Error` objects (there is no dedicated class in `errors.ts`); they are
modelled by the `lifecycle` constructor. -/
inductive GameError (M : Type) where
  | invalidOptions (reason : String)
  | invalidMove (move : M) (reason : String)
  | illegalMove (move : M) (player : Player) (reason : String)
  | outOfTurn (player : Player) (reason : String)
  | lifecycle (reason : String)
deriving DecidableEq, Repr

/-- The abstract methods a concrete game must supply (`Game<O, M, PU, PR>`),
plus the game's own private state `G` (the subclass's fields), which the
stateful methods read and return explicitly. -/
structure GameImpl (O G M PU PR : Type) where
  numberOfPlayersForOptions : O → ℚ
  sanitizeOptions : O → Except (GameError M) O
  sanitizeMove : M → Except (GameError M) M
  assertMoveIsLegal : G → M → Player → Except (GameError M) Unit
  -- models the abstract method `initialize(seed)` of `Game` (renamed because
  -- its source name is a Lean command keyword)
  initGame : G → String → G × Update PU PR
  processTurn : G → List (Player × M) → G × Update PU PR
  getWinners : G → List Player

/-- The mutable fields of the `Game` class: the subclass state, the
`pendingMoves` map (insertion-ordered pairs with distinct keys) and the
`updates` array (in push order). -/
structure EngineState (G M PU PR : Type) where
  game : G
  pendingMoves : List (Player × M)
  updates : List (Update PU PR)
deriving DecidableEq, Repr

variable {O G M PU PR : Type}

instance {ε α : Type} [DecidableEq ε] [DecidableEq α] :
    DecidableEq (Except ε α) := fun x y =>
  match x, y with
  | .error a, .error b =>
    if h : a = b then isTrue (by rw [h])
    else isFalse (by intro hc; cases hc; exact h rfl)
  | .ok a, .ok b =>
    if h : a = b then isTrue (by rw [h])
    else isFalse (by intro hc; cases hc; exact h rfl)
  | .error _, .ok _ => isFalse (by intro hc; cases hc)
  | .ok _, .error _ => isFalse (by intro hc; cases hc)

/-- The engine-owned part of `Game`'s constructor: `this.pendingMoves = new
Map()` and `this.updates = []`; the subclass state `g` is built by the
subclass's own constructor. -/
def mkEngineState (g : G) : EngineState G M PU PR :=
  ⟨g, [], []⟩

/-- The fields the constructor of `Game` computes from the options. -/
structure ConstructedGame (O : Type) where
  options : O
  numberOfPlayers : ℚ
deriving DecidableEq, Repr

/-- Model of `Game`'s constructor: `this.options = this.sanitizeOptions(options);
this.numberOfPlayers = this.numberOfPlayersForOptions(options)`.  Note that
the source passes the raw `options` argument — not the sanitized
`this.options` — to `numberOfPlayersForOptions`. -/
def gameConstructor (impl : GameImpl O G M PU PR) (options : O) :
    Except (GameError M) (ConstructedGame O) :=
  match impl.sanitizeOptions options with
  | .error e => .error e
  | .ok sanitized =>
    .ok ⟨sanitized, impl.numberOfPlayersForOptions options⟩

/-- Model of `jsSetAux seen l` collects the elements of `l` not in `seen`, first
occurrence first: the contents of `new Set(l)` in JS iteration order. -/
def jsSetAux (seen : List Player) : List Player → List Player
  | [] => []
  | a :: rest =>
    if a ∈ seen then jsSetAux seen rest else a :: jsSetAux (a :: seen) rest

/-- Model of `new Set(l)` for a list of players: distinct elements in first-occurrence
order. -/
def jsSet (l : List Player) : List Player :=
  jsSetAux [] l

/-- Model of `Game.getAllUpdates`: returns the updates array (no started-check in the
source). -/
def getAllUpdates (s : EngineState G M PU PR) : List (Update PU PR) :=
  s.updates

/-- Model of `Game.getLatestUpdate`: throws before `start`, else returns the last
update. -/
def getLatestUpdate (s : EngineState G M PU PR) :
    Except (GameError M) (Update PU PR) :=
  match s.updates.getLast? with
  | none => .error (.lifecycle "Game hasn't started yet")
  | some u => .ok u

/-- Model of `Game.getPlayersToPlay`: `new Set(latest.toPlay)` when started, else the
empty set. -/
def getPlayersToPlay (s : EngineState G M PU PR) : List Player :=
  match s.updates.getLast? with
  | some u => jsSet u.toPlay
  | none => []

/-- The winners-attachment block that appears verbatim in both `Game.start`
and `Game.playMove`: `if (update.toPlay.length == 0) update.winners =
this.getWinners();` — `g` is the game state at the moment of the call. -/
def attachIfOver (impl : GameImpl O G M PU PR) (g : G) (u : Update PU PR) :
    Update PU PR :=
  if u.toPlay.length = 0 then { u with winners := some (impl.getWinners g) }
  else u

/-- Model of `Game.start(seed)`. -/
def start (impl : GameImpl O G M PU PR) (s : EngineState G M PU PR)
    (seed : String) : Except (GameError M) (EngineState G M PU PR) :=
  if s.updates.length > 0 then
    .error (.lifecycle "A game can only be started once")
  else
    let next := impl.initGame s.game seed
    .ok ⟨next.1, s.pendingMoves, s.updates ++ [attachIfOver impl next.1 next.2]⟩

/-- Model of `Game.playMove(move, player)`. -/
def playMove (impl : GameImpl O G M PU PR) (s : EngineState G M PU PR)
    (move : M) (player : Player) :
    Except (GameError M) (EngineState G M PU PR × Bool) :=
  if s.updates.length = 0 then
    .error (.outOfTurn player "The game hasn't started yet")
  else if (getPlayersToPlay s).length = 0 then
    .error (.outOfTurn player "The game is already over")
  else if player ∉ getPlayersToPlay s then
    .error (.outOfTurn player "No legal moves this turn for this player")
  else if (s.pendingMoves.lookup player).isSome then
    .error (.outOfTurn player "Player has already played this turn")
  else
    match impl.sanitizeMove move with
    | .error e => .error e
    | .ok sanitizedMove =>
      match impl.assertMoveIsLegal s.game sanitizedMove player with
      | .error e => .error e
      | .ok _ =>
        let pending := s.pendingMoves ++ [(player, sanitizedMove)]
        if (getPlayersToPlay s).length = pending.length then
          let next := impl.processTurn s.game pending
          .ok (⟨next.1, [], s.updates ++ [attachIfOver impl next.1 next.2]⟩, true)
        else
          .ok ({ s with pendingMoves := pending }, false)

/-- An operation a caller can perform on a game instance. -/
inductive Op (M : Type) where
  | start (seed : String)
  | play (move : M) (player : Player)

/-- Perform one caller operation; a thrown error leaves the instance exactly
as it was (the caller catches the exception and keeps the same object). -/
def applyOp (impl : GameImpl O G M PU PR) (s : EngineState G M PU PR) :
    Op M → EngineState G M PU PR
  | .start seed =>
    match start impl s seed with
    | .ok s2 => s2
    | .error _ => s
  | .play move player =>
    match playMove impl s move player with
    | .ok (s2, _) => s2
    | .error _ => s

/-- Run a list of caller operations in order. -/
def runOps (impl : GameImpl O G M PU PR) (s : EngineState G M PU PR) :
    List (Op M) → EngineState G M PU PR
  | [] => s
  | op :: rest => runOps impl (applyOp impl s op) rest

/-- States reachable from a freshly constructed instance. -/
inductive Reachable (impl : GameImpl O G M PU PR) :
    EngineState G M PU PR → Prop where
  | init (g : G) : Reachable impl (mkEngineState g)
  | step (s : EngineState G M PU PR) (op : Op M) :
      Reachable impl s → Reachable impl (applyOp impl s op)

/-- The engine's buffer invariant: `pendingMoves` has pairwise-distinct keys,
each of which is a member of the current `toPlay` set. -/
def EngineInvariant (s : EngineState G M PU PR) : Prop :=
  (s.pendingMoves.map Prod.fst).Nodup ∧
    ∀ p ∈ s.pendingMoves.map Prod.fst, p ∈ getPlayersToPlay s

instance (s : EngineState G M PU PR) : Decidable (EngineInvariant s) := by
  unfold EngineInvariant; infer_instance

/-- A terminal instance: started, and the latest update's `toPlay` is empty. -/
def Terminal (s : EngineState G M PU PR) : Prop :=
  s.updates ≠ [] ∧ getPlayersToPlay s = []

instance [DecidableEq PU] [DecidableEq PR] (s : EngineState G M PU PR) :
    Decidable (Terminal s) := by
  unfold Terminal; infer_instance

/-- The `getAllUpdates` described by the spec (for comparison with the code's
`getAllUpdates`).  Modelled from the spec: "Read-only; fail with
`LifecycleError` if called before `start`." -/
def getAllUpdatesSpecced (s : EngineState G M PU PR) :
    Except (GameError M) (List (Update PU PR)) :=
  if s.updates.length = 0 then .error (.lifecycle "Game hasn't started yet")
  else .ok s.updates

/-! ## The dice-guessing test game (`src/test/simple_game.ts`) -/

/-- Model of `SimpleOptions`.  JS numbers that stay integral are still modelled as `ℚ`
because callers may pass non-integral values (sanitization floors
`numPlayers`). -/
structure SimpleOptions where
  numPlayers : ℚ
  numPoints : Option ℚ
deriving DecidableEq, Repr

/-- A raw or sanitized `SimpleMove`.  A raw move's `guess` may be any string;
sanitization accepts only `"even"` and `"odd"`.  The optional `gamble` field is
absent (`none`) or a boolean. -/
structure SimpleMove where
  guess : String
  gamble : Option Bool
deriving DecidableEq, Repr

/-- Model of `SimplePublicUpdate`: fields that are `null` in JS become `none`, and a
`calls` entry for a player who did not play is `none`. -/
structure SimplePublicUpdate where
  calls : Option (List (Option SimpleMove))
  publicRolls : Option (List ℕ)
  lastPrivateRolls : Option (List ℕ)
deriving DecidableEq, Repr

/-- Model of `SimplePrivateUpdate`. -/
structure SimplePrivateUpdate where
  privateRoll : ℕ
deriving DecidableEq, Repr

/-- The private fields of the `SimpleGame` subclass, plus the inherited
(sanitized) `options`. -/
structure SimpleState where
  options : SimpleOptions
  rollGenerator : ℕ
  highRollers : List Player
  highRollsParity : String
  points : List ℤ
  publicRolls : Option (List ℕ)
  privateRolls : Option (List ℕ)
  lastPrivateRolls : Option (List ℕ)
deriving DecidableEq, Repr

/-- JS `Math.floor` on the rationals this code feeds it (only values ≥ 1
reach the floor in `sanitizeOptions`, where truncating and flooring agree). -/
def jsFloor (q : ℚ) : ℚ :=
  ((q.num / (q.den : ℤ) : ℤ) : ℚ)

/-- The sanitized `numPlayers` is an integer ≥ 1; recover it as a `ℕ` for the
`for (let i = 0; i < this.options.numPlayers; ++i)` loops. -/
def numPlayersNat (o : SimpleOptions) : ℕ :=
  o.numPlayers.num.toNat

/-- JS array read `l[i]`: `none` for an out-of-range or negative index. -/
def idx? (l : List α) (i : Int) : Option α :=
  if 0 ≤ i then l.get? i.toNat else none

/-- JS array write `l[i] = f l[i]` for an in-range index; out-of-range leaves
the list unchanged (only in-range indices occur on the paths exercised). -/
def modifyIdx : List α → Int → (α → α) → List α
  | [], _, _ => []
  | a :: rest, i, f =>
    if i = 0 then f a :: rest else a :: modifyIdx rest (i - 1) f

/-- Model of `SimpleGame.getNextDiceRoll`: advance the generator, return the roll. -/
def nextDice (gen : ℕ) : ℕ × ℕ :=
  let g := (gen * 8191) % 127
  (g, 1 + g % 6)

/-- Accumulator for the `rollAllDice` loop. -/
structure RollState where
  gen : ℕ
  highest : ℕ
  priv : List ℕ
  pub : List ℕ
  hr : List Player
deriving DecidableEq, Repr

/-- One iteration of the `rollAllDice` loop for player `i`: roll the private
die then the public die, update the running maximum and the high-roller
list. -/
def rollStep (st : RollState) (i : Player) : RollState :=
  let n1 := nextDice st.gen
  let n2 := nextDice n1.1
  let d2 := n2.2
  let cleared := if d2 > st.highest then (⟨d2, []⟩ : ℕ × List Player)
                 else (st.highest, st.hr)
  let hr := if d2 = cleared.1 then cleared.2 ++ [i] else cleared.2
  ⟨n2.1, cleared.1, st.priv ++ [n1.2], st.pub ++ [d2], hr⟩

/-- Player indices `0, …, n-1` as `Player`s. -/
def playersRange (n : ℕ) : List Player :=
  (List.range n).map (fun i => (i : Int))

/-- Model of `SimpleGame.rollAllDice`. -/
def rollAllDice (g : SimpleState) : SimpleState :=
  let st := (playersRange (numPlayersNat g.options)).foldl rollStep
    ⟨g.rollGenerator, 0, [], [], []⟩
  let total := st.hr.foldl (fun acc p => acc + ((idx? st.priv p).getD 0)) 0
  { g with
    rollGenerator := st.gen
    privateRolls := some st.priv
    publicRolls := some st.pub
    highRollers := st.hr
    highRollsParity := if total % 2 = 0 then "even" else "odd" }

/-- Model of `SimpleGame.currentUpdate(calls)`. -/
def currentUpdate (g : SimpleState) (calls : Option (List (Option SimpleMove))) :
    Update SimplePublicUpdate SimplePrivateUpdate :=
  { publicInfo :=
      { calls := calls
        publicRolls := g.publicRolls
        lastPrivateRolls := g.lastPrivateRolls }
    toPlay := g.highRollers
    winners := none
    privateInfo := g.privateRolls.map (fun rolls => rolls.map (⟨·⟩)) }

/-- Model of `SimpleGame.getWinners`: players whose points reached `numPoints`.  (A JS
comparison against an undefined `numPoints` is always false, hence the `none`
branch; sanitized options always carry `some`.) -/
def simpleGetWinners (g : SimpleState) : List Player :=
  match g.options.numPoints with
  | none => []
  | some target =>
    (playersRange g.points.length).filter
      (fun p => target ≤ ((idx? g.points p).getD 0 : ℚ))

/-- Model of `SimpleGame.initialize(seed)`: seed the generator with the sum of the
seed's character codes mod 127, roll the first set of dice, and return the
first update (`currentUpdate(null)`). -/
def simpleInit (g : SimpleState) (seed : String) :
    SimpleState × Update SimplePublicUpdate SimplePrivateUpdate :=
  let gen := (seed.data.foldl (fun acc c => acc + c.toNat) 0) % 127
  let g2 := rollAllDice { g with rollGenerator := gen }
  (g2, currentUpdate g2 none)

/-- Model of `SimpleGame.sanitizeOptions`.  (The `typeof != "number"` branch guards
against non-numeric JS input, which the typed model cannot express.) -/
def simpleSanitizeOptions (o : SimpleOptions) :
    Except (GameError SimpleMove) SimpleOptions :=
  if o.numPlayers < 1 then
    .error (.invalidOptions "number of players must be at least 1")
  else
    .ok { numPlayers := jsFloor o.numPlayers
          numPoints :=
            match o.numPoints with
            | some q => if 1 ≤ q then some q else some 10
            | none => some 10 }

/-- Model of `SimpleGame.numberOfPlayersForOptions`. -/
def simpleNumberOfPlayers (o : SimpleOptions) : ℚ :=
  o.numPlayers

/-- Model of `SimpleGame.sanitizeMove`: require an even/odd guess; keep `gamble` only
when truthy. -/
def simpleSanitizeMove (m : SimpleMove) :
    Except (GameError SimpleMove) SimpleMove :=
  if m.guess ≠ "even" ∧ m.guess ≠ "odd" then
    .error (.invalidMove m "move does not contain an even/odd guess")
  else
    .ok { guess := m.guess
          gamble := if m.gamble = some true then some true else none }

/-- Model of `SimpleGame.assertMoveIsLegal`: a gamble is only legal when the player's
public and private rolls match. -/
def simpleAssertLegal (g : SimpleState) (m : SimpleMove) (player : Player) :
    Except (GameError SimpleMove) Unit :=
  let pub := g.publicRolls.bind (fun l => idx? l player)
  let priv := g.privateRolls.bind (fun l => idx? l player)
  if pub ≠ priv ∧ m.gamble = some true then
    .error (.illegalMove m player
      "Can only call a gamble if the public roll matches the private roll")
  else
    .ok ()

/-- The points-update body of the `moves.forEach` loop in
`SimpleGame.processTurn`. -/
def applyMovePoints (parity : String) (points : List ℤ)
    (pm : Player × SimpleMove) : List ℤ :=
  let points2 := if pm.2.gamble = some true
    then modifyIdx points pm.1 (· - 1) else points
  if pm.2.guess = parity then
    modifyIdx points2 pm.1 (· + (if pm.2.gamble = some true then 4 else 1))
  else points2

/-- Model of `SimpleGame.processTurn(moves)`. -/
def simpleProcessTurn (g : SimpleState) (moves : List (Player × SimpleMove)) :
    SimpleState × Update SimplePublicUpdate SimplePrivateUpdate :=
  let g1 := { g with points := moves.foldl (applyMovePoints g.highRollsParity) g.points }
  let g2 := { g1 with lastPrivateRolls := g1.privateRolls }
  let g3 := if (simpleGetWinners g2).length = 0 then rollAllDice g2
    else { g2 with publicRolls := none, privateRolls := none, highRollers := [] }
  let calls := (playersRange (numPlayersNat g3.options)).map
    (fun i => moves.lookup i)
  (g3, currentUpdate g3 (some calls))

/-- The `GameImpl` record for `SimpleGame`. -/
def simpleImpl :
    GameImpl SimpleOptions SimpleState SimpleMove SimplePublicUpdate SimplePrivateUpdate :=
  { numberOfPlayersForOptions := simpleNumberOfPlayers
    sanitizeOptions := simpleSanitizeOptions
    sanitizeMove := simpleSanitizeMove
    assertMoveIsLegal := simpleAssertLegal
    initGame := simpleInit
    processTurn := simpleProcessTurn
    getWinners := simpleGetWinners }

/-- The field initialization performed by `SimpleGame`'s constructor, given
already-sanitized options (`rollGenerator` and `highRollsParity` stay unset
in the source until `initialize` assigns them; any defaults are fine). -/
def mkSimpleState (o : SimpleOptions) : SimpleState :=
  { options := o
    rollGenerator := 0
    highRollers := []
    highRollsParity := "even"
    points := List.replicate (numPlayersNat o) 0
    publicRolls := some []
    privateRolls := some []
    lastPrivateRolls := none }

/-- The sanitized options used throughout the repository's own test
(`numPlayers = 3`, `numPoints = 5`). -/
def simpleSanitized : SimpleOptions :=
  { numPlayers := 3, numPoints := some 5 }

/-- The engine state right after `new SimpleGame({numPlayers:3, numPoints:5})`
followed by `start("test_seed")`, the scenario of
`simple_game_test.ts`. -/
def simpleStartedState :
    EngineState SimpleState SimpleMove SimplePublicUpdate SimplePrivateUpdate :=
  applyOp simpleImpl (mkEngineState (mkSimpleState simpleSanitized))
    (.start "test_seed")

-- Cross-checks of the embedding against the repository's own test
-- expectations (`simple_game_test.ts`): the first update's rolls and the
-- rolls after the first resolved turn.
example :
    (getAllUpdates simpleStartedState).map (fun u => u.publicInfo.publicRolls) =
      [some [6, 1, 4]] := by decide

example :
    (getAllUpdates simpleStartedState).map (fun u => u.privateInfo.map
      (fun l => l.map (fun x => x.privateRoll))) = [some [5, 2, 2]] := by decide

example :
    getPlayersToPlay simpleStartedState = [0] := by decide

example :
    (getAllUpdates (applyOp simpleImpl simpleStartedState
        (.play ⟨"even", none⟩ 0))).map (fun u => u.publicInfo.publicRolls) =
      [some [6, 1, 4], some [4, 1, 1]] := by decide

example :
    (getAllUpdates (runOps simpleImpl simpleStartedState
        [.play ⟨"even", none⟩ 0, .play ⟨"odd", none⟩ 0])).getLast?.map
        (fun u => u.publicInfo.publicRolls) = some (some [6, 6, 1]) := by decide

/-! ## Helper lemmas about the engine -/

theorem jsSetAux_mem (l : List Player) (a : Player) :
    ∀ seen, a ∈ jsSetAux seen l ↔ a ∈ l ∧ a ∉ seen := by
  induction l with
  | nil => intro seen; simp [jsSetAux]
  | cons b rest ih =>
    intro seen
    by_cases hb : b ∈ seen
    · rw [jsSetAux, if_pos hb, ih]
      constructor
      · rintro ⟨h1, h2⟩; exact ⟨List.mem_cons_of_mem _ h1, h2⟩
      · rintro ⟨h1, h2⟩
        rcases List.mem_cons.mp h1 with h | h
        · exact absurd (h ▸ hb) h2
        · exact ⟨h, h2⟩
    · rw [jsSetAux, if_neg hb]
      by_cases hab : a = b
      · subst hab
        constructor
        · intro _; exact ⟨List.mem_cons_self _ _, hb⟩
        · intro _; exact List.mem_cons_self _ _
      · constructor
        · intro h
          rcases List.mem_cons.mp h with h | h
          · exact absurd h hab
          · obtain ⟨h1, h2⟩ := (ih _).mp h
            exact ⟨List.mem_cons_of_mem _ h1,
              fun hc => h2 (List.mem_cons_of_mem _ hc)⟩
        · rintro ⟨h1, h2⟩
          rcases List.mem_cons.mp h1 with h | h
          · exact absurd h hab
          · refine List.mem_cons_of_mem _ ((ih _).mpr ⟨h, fun hc => ?_⟩)
            rcases List.mem_cons.mp hc with h' | h'
            · exact hab h'
            · exact h2 h'

theorem jsSet_mem (l : List Player) (a : Player) : a ∈ jsSet l ↔ a ∈ l := by
  rw [jsSet, jsSetAux_mem]
  simp

theorem jsSetAux_nodup (l : List Player) : ∀ seen, (jsSetAux seen l).Nodup := by
  induction l with
  | nil => intro seen; simp [jsSetAux]
  | cons b rest ih =>
    intro seen
    by_cases hb : b ∈ seen
    · rw [jsSetAux, if_pos hb]; exact ih seen
    · rw [jsSetAux, if_neg hb]
      refine List.nodup_cons.mpr ⟨fun hc => ?_, ih _⟩
      exact ((jsSetAux_mem _ _ _).mp hc).2 (List.mem_cons_self _ _)

theorem jsSet_nodup (l : List Player) : (jsSet l).Nodup :=
  jsSetAux_nodup l []

theorem jsSet_eq_nil {l : List Player} (h : jsSet l = []) : l = [] := by
  cases l with
  | nil => rfl
  | cons a rest =>
    exact absurd ((jsSet_mem _ a).mpr (List.mem_cons_self _ _))
      (by rw [h]; exact List.not_mem_nil a)

theorem getPlayersToPlay_nodup (s : EngineState G M PU PR) :
    (getPlayersToPlay s).Nodup := by
  rw [getPlayersToPlay]
  cases s.updates.getLast? with
  | none => exact List.nodup_nil
  | some u => exact jsSet_nodup u.toPlay

theorem getPlayersToPlay_updates {s s2 : EngineState G M PU PR}
    (h : s2.updates = s.updates) : getPlayersToPlay s2 = getPlayersToPlay s := by
  rw [getPlayersToPlay, getPlayersToPlay, h]

theorem lookup_eq_none_iff {l : List (Player × M)} {a : Player} :
    l.lookup a = none ↔ a ∉ l.map Prod.fst := by
  induction l with
  | nil => simp
  | cons p rest ih =>
    obtain ⟨k, v⟩ := p
    by_cases h : a = k
    · subst h; simp [List.lookup]
    · simp [List.lookup, h, ih, beq_false_of_ne h]

/-- For lists of distinct players with `l₁ ⊆ l₂`, having equal lengths is the
same as having equal members. -/
theorem length_eq_iff_mem_eq {l₁ l₂ : List Player} (h₁ : l₁.Nodup)
    (h₂ : l₂.Nodup) (hsub : ∀ a ∈ l₁, a ∈ l₂) :
    l₁.length = l₂.length ↔ ∀ a, a ∈ l₁ ↔ a ∈ l₂ := by
  constructor
  · intro hlen
    have hsp : l₁.Subperm l₂ := List.subperm_of_subset h₁ hsub
    have hperm : l₁.Perm l₂ := hsp.perm_of_length_le (le_of_eq hlen.symm)
    exact fun a => hperm.mem_iff
  · intro hmem
    exact ((List.perm_ext_iff_of_nodup h₁ h₂).mpr hmem).length_eq

/-! Characterizations of `start` and `playMove`. -/

theorem start_already (impl : GameImpl O G M PU PR) (s : EngineState G M PU PR)
    (seed : String) (h : s.updates ≠ []) :
    start impl s seed = .error (.lifecycle "A game can only be started once") := by
  rw [start, if_pos (List.length_pos.mpr h)]

theorem start_ok_eq (impl : GameImpl O G M PU PR) (s : EngineState G M PU PR)
    (seed : String) (h : s.updates = []) :
    start impl s seed = .ok ⟨(impl.initGame s.game seed).1, s.pendingMoves,
      s.updates ++ [attachIfOver impl (impl.initGame s.game seed).1
        (impl.initGame s.game seed).2]⟩ := by
  rw [start, if_neg (by simp [h])]

theorem start_ok_inv {impl : GameImpl O G M PU PR} {s s2 : EngineState G M PU PR}
    {seed : String} (h : start impl s seed = .ok s2) :
    s.updates = [] ∧ s2 = ⟨(impl.initGame s.game seed).1, s.pendingMoves,
      [attachIfOver impl (impl.initGame s.game seed).1
        (impl.initGame s.game seed).2]⟩ := by
  by_cases hu : s.updates = []
  · rw [start_ok_eq impl s seed hu] at h
    refine ⟨hu, ?_⟩
    cases h
    rw [hu]
    rfl
  · rw [start_already impl s seed hu] at h
    cases h

theorem playMove_not_started (impl : GameImpl O G M PU PR)
    (s : EngineState G M PU PR) (move : M) (player : Player)
    (h : s.updates = []) :
    playMove impl s move player =
      .error (.outOfTurn player "The game hasn't started yet") := by
  rw [playMove, if_pos (by simp [h])]

theorem playMove_over (impl : GameImpl O G M PU PR)
    (s : EngineState G M PU PR) (move : M) (player : Player)
    (h : s.updates ≠ []) (h2 : getPlayersToPlay s = []) :
    playMove impl s move player =
      .error (.outOfTurn player "The game is already over") := by
  rw [playMove, if_neg (by simp [List.length_eq_zero, h]),
    if_pos (by simp [h2])]

theorem playMove_not_member (impl : GameImpl O G M PU PR)
    (s : EngineState G M PU PR) (move : M) (player : Player)
    (h : s.updates ≠ []) (h2 : getPlayersToPlay s ≠ [])
    (h3 : player ∉ getPlayersToPlay s) :
    playMove impl s move player =
      .error (.outOfTurn player "No legal moves this turn for this player") := by
  rw [playMove, if_neg (by simp [List.length_eq_zero, h]),
    if_neg (by simp [List.length_eq_zero, h2]), if_pos h3]

theorem playMove_already_played (impl : GameImpl O G M PU PR)
    (s : EngineState G M PU PR) (move : M) (player : Player)
    (h : s.updates ≠ []) (h2 : player ∈ getPlayersToPlay s)
    (h3 : (s.pendingMoves.lookup player).isSome) :
    playMove impl s move player =
      .error (.outOfTurn player "Player has already played this turn") := by
  have hne : getPlayersToPlay s ≠ [] := by
    intro hc; rw [hc] at h2; exact List.not_mem_nil _ h2
  rw [playMove, if_neg (by simp [List.length_eq_zero, h]),
    if_neg (by simp [List.length_eq_zero, hne]), if_neg (not_not_intro h2),
    if_pos h3]

/-- A `playMove` call that passes all four eligibility checks, sanitization
and the legality check reaches the resolution test. -/
theorem playMove_validated (impl : GameImpl O G M PU PR)
    (s : EngineState G M PU PR) (move : M) (player : Player) (sm : M)
    (hstarted : s.updates ≠ [])
    (hmem : player ∈ getPlayersToPlay s)
    (hnew : s.pendingMoves.lookup player = none)
    (hsan : impl.sanitizeMove move = .ok sm)
    (hleg : impl.assertMoveIsLegal s.game sm player = .ok ()) :
    playMove impl s move player =
      if (getPlayersToPlay s).length = (s.pendingMoves ++ [(player, sm)]).length
      then
        .ok (⟨(impl.processTurn s.game (s.pendingMoves ++ [(player, sm)])).1, [],
          s.updates ++ [attachIfOver impl
            (impl.processTurn s.game (s.pendingMoves ++ [(player, sm)])).1
            (impl.processTurn s.game (s.pendingMoves ++ [(player, sm)])).2]⟩,
          true)
      else .ok ({ s with pendingMoves := s.pendingMoves ++ [(player, sm)] },
        false) := by
  have hne : getPlayersToPlay s ≠ [] := by
    intro hc; rw [hc] at hmem; exact List.not_mem_nil _ hmem
  rw [playMove, if_neg (by simp [List.length_eq_zero, hstarted]),
    if_neg (by simp [List.length_eq_zero, hne]), if_neg (not_not_intro hmem),
    if_neg (by simp [hnew])]
  simp only [hsan, hleg]

theorem playMove_ok_inv {impl : GameImpl O G M PU PR}
    {s s2 : EngineState G M PU PR} {move : M} {player : Player} {b : Bool}
    (h : playMove impl s move player = .ok (s2, b)) :
    ∃ sm, impl.sanitizeMove move = .ok sm ∧
      impl.assertMoveIsLegal s.game sm player = .ok () ∧
      s.updates ≠ [] ∧ player ∈ getPlayersToPlay s ∧
      s.pendingMoves.lookup player = none ∧
      ((b = true ∧
          (getPlayersToPlay s).length =
            (s.pendingMoves ++ [(player, sm)]).length ∧
          s2 = ⟨(impl.processTurn s.game (s.pendingMoves ++ [(player, sm)])).1,
            [], s.updates ++ [attachIfOver impl
              (impl.processTurn s.game (s.pendingMoves ++ [(player, sm)])).1
              (impl.processTurn s.game (s.pendingMoves ++ [(player, sm)])).2]⟩) ∨
        (b = false ∧
          (getPlayersToPlay s).length ≠
            (s.pendingMoves ++ [(player, sm)]).length ∧
          s2 = { s with pendingMoves := s.pendingMoves ++ [(player, sm)] })) := by
  rw [playMove] at h
  by_cases h0 : s.updates.length = 0
  · rw [if_pos h0] at h; cases h
  rw [if_neg h0] at h
  by_cases h1 : (getPlayersToPlay s).length = 0
  · rw [if_pos h1] at h; cases h
  rw [if_neg h1] at h
  by_cases h2 : player ∉ getPlayersToPlay s
  · rw [if_pos h2] at h; cases h
  rw [if_neg h2] at h
  by_cases h3 : (s.pendingMoves.lookup player).isSome
  · rw [if_pos h3] at h; cases h
  rw [if_neg h3] at h
  rcases hs : impl.sanitizeMove move with e | sm
  · rw [hs] at h; simp at h
  rw [hs] at h
  rcases hl : impl.assertMoveIsLegal s.game sm player with e | u
  · simp [hl] at h
  obtain ⟨⟩ := u
  simp only [hl] at h
  refine ⟨sm, rfl, hl, by simpa [List.length_eq_zero] using h0,
    not_not.mp h2, Option.not_isSome_iff_eq_none.mp h3, ?_⟩
  by_cases h4 :
      (getPlayersToPlay s).length = (s.pendingMoves ++ [(player, sm)]).length
  · rw [if_pos h4] at h
    injection h with h5
    injection h5 with ha hb
    subst ha
    subst hb
    exact Or.inl ⟨rfl, h4, rfl⟩
  · rw [if_neg h4] at h
    injection h with h5
    injection h5 with ha hb
    subst ha
    subst hb
    exact Or.inr ⟨rfl, h4, rfl⟩

/-! Preservation of the buffer invariant, terminal stability, and
append-only history. -/

theorem invariant_applyOp (impl : GameImpl O G M PU PR)
    (s : EngineState G M PU PR) (op : Op M) (hinv : EngineInvariant s) :
    EngineInvariant (applyOp impl s op) := by
  cases op with
  | start seed =>
    rw [applyOp]
    rcases h : start impl s seed with e | s2
    · exact hinv
    · obtain ⟨hu, rfl⟩ := start_ok_inv h
      have hgpp : getPlayersToPlay s = [] := by
        rw [getPlayersToPlay, hu]; rfl
      have hpend : s.pendingMoves = [] := by
        have := hinv.2
        rw [hgpp] at this
        rcases hp : s.pendingMoves with _ | ⟨⟨k, v⟩, rest⟩
        · rfl
        · exact absurd (this k (by rw [hp]; exact List.mem_cons_self _ _))
            (List.not_mem_nil k)
      exact ⟨by simp [hpend], by simp [hpend]⟩
  | play move player =>
    rw [applyOp]
    rcases h : playMove impl s move player with e | p
    · exact hinv
    · obtain ⟨s2, b⟩ := p
      obtain ⟨sm, hsan, hleg, hst, hmem, hnew, hcase⟩ := playMove_ok_inv h
      rcases hcase with ⟨hb, hlen, rfl⟩ | ⟨hb, hlen, rfl⟩
      · exact ⟨List.nodup_nil, by simp⟩
      · have hkeys : player ∉ s.pendingMoves.map Prod.fst :=
          lookup_eq_none_iff.mp hnew
        constructor
        · rw [List.map_append]
          refine List.nodup_append.mpr ⟨hinv.1, List.nodup_singleton _, ?_⟩
          intro a ha hb2
          simp only [List.map_cons, List.map_nil, List.mem_singleton] at hb2
          exact hkeys (hb2 ▸ ha)
        · intro p hp
          have hgpp : getPlayersToPlay
              { s with pendingMoves := s.pendingMoves ++ [(player, sm)] } =
              getPlayersToPlay s := getPlayersToPlay_updates rfl
          rw [hgpp]
          rw [List.map_append] at hp
          rcases List.mem_append.mp hp with hp | hp
          · exact hinv.2 p hp
          · simp only [List.map_cons, List.map_nil, List.mem_singleton] at hp
            exact hp ▸ hmem

theorem reachable_invariant (impl : GameImpl O G M PU PR)
    (s : EngineState G M PU PR) (h : Reachable impl s) : EngineInvariant s := by
  induction h with
  | init g => exact ⟨List.nodup_nil, by simp [mkEngineState]⟩
  | step s op hr ih => exact invariant_applyOp impl s op ih

theorem terminal_applyOp (impl : GameImpl O G M PU PR)
    (s : EngineState G M PU PR) (op : Op M) (ht : Terminal s) :
    applyOp impl s op = s := by
  obtain ⟨hne, hempty⟩ := ht
  cases op with
  | start seed => rw [applyOp, start_already impl s seed hne]
  | play move player => rw [applyOp, playMove_over impl s move player hne hempty]

theorem terminal_runOps (impl : GameImpl O G M PU PR)
    (s : EngineState G M PU PR) (ops : List (Op M)) (ht : Terminal s) :
    runOps impl s ops = s := by
  induction ops with
  | nil => rfl
  | cons op rest ih => rw [runOps, terminal_applyOp impl s op ht]; exact ih

theorem applyOp_updates (impl : GameImpl O G M PU PR)
    (s : EngineState G M PU PR) (op : Op M) :
    ∃ t, (applyOp impl s op).updates = s.updates ++ t := by
  cases op with
  | start seed =>
    rw [applyOp]
    rcases h : start impl s seed with e | s2
    · exact ⟨[], by simp⟩
    · obtain ⟨hu, rfl⟩ := start_ok_inv h
      exact ⟨_, by rw [hu]; rfl⟩
  | play move player =>
    rw [applyOp]
    rcases h : playMove impl s move player with e | p
    · exact ⟨[], by simp⟩
    · obtain ⟨s2, b⟩ := p
      obtain ⟨sm, hsan, hleg, hst, hmem, hnew, hcase⟩ := playMove_ok_inv h
      rcases hcase with ⟨hb, hlen, rfl⟩ | ⟨hb, hlen, rfl⟩
      · exact ⟨_, rfl⟩
      · exact ⟨[], by simp⟩

theorem runOps_updates (impl : GameImpl O G M PU PR)
    (s : EngineState G M PU PR) (ops : List (Op M)) :
    ∃ t, (runOps impl s ops).updates = s.updates ++ t := by
  induction ops generalizing s with
  | nil => exact ⟨[], by simp [runOps]⟩
  | cons op rest ih =>
    obtain ⟨t1, h1⟩ := applyOp_updates impl s op
    obtain ⟨t2, h2⟩ := ih (applyOp impl s op)
    exact ⟨t1 ++ t2, by rw [runOps, h2, h1, List.append_assoc]⟩

theorem attachIfOver_empty (impl : GameImpl O G M PU PR) (g : G)
    (u : Update PU PR) (h : u.toPlay = []) :
    attachIfOver impl g u = { u with winners := some (impl.getWinners g) } := by
  rw [attachIfOver, if_pos (by simp [h])]

theorem attachIfOver_nonempty (impl : GameImpl O G M PU PR) (g : G)
    (u : Update PU PR) (h : u.toPlay ≠ []) : attachIfOver impl g u = u := by
  rw [attachIfOver, if_neg (by simp [List.length_eq_zero, h])]

/-! ## The claims -/

/-- Claim C1: for a started, non-terminal game (in a state satisfying the
engine's buffer invariant, which holds in every reachable state by
`reachable_invariant`), a `playMove` call that passes all validation stores
the sanitized move in the pending buffer and returns `true` exactly when the
set of players that have now submitted equals the current `toPlay` set; in
that case `processTurn` is invoked with the full pending map, exactly one new
update is appended to history and the pending buffer is completely cleared;
otherwise the call returns `false` and the history is unchanged. -/
theorem claim1_resolution (impl : GameImpl O G M PU PR)
    (s : EngineState G M PU PR) (move : M) (player : Player) (sm : M)
    (hinv : EngineInvariant s)
    (hstarted : s.updates ≠ [])
    (hmem : player ∈ getPlayersToPlay s)
    (hnew : s.pendingMoves.lookup player = none)
    (hsan : impl.sanitizeMove move = .ok sm)
    (hleg : impl.assertMoveIsLegal s.game sm player = .ok ()) :
    ∃ s2 b, playMove impl s move player = .ok (s2, b) ∧
      (b = true ↔ ∀ q,
        q ∈ (s.pendingMoves ++ [(player, sm)]).map Prod.fst ↔
          q ∈ getPlayersToPlay s) ∧
      (b = true →
        s2 = ⟨(impl.processTurn s.game (s.pendingMoves ++ [(player, sm)])).1,
          [], s.updates ++ [attachIfOver impl
            (impl.processTurn s.game (s.pendingMoves ++ [(player, sm)])).1
            (impl.processTurn s.game (s.pendingMoves ++ [(player, sm)])).2]⟩) ∧
      (b = false →
        s2 = { s with pendingMoves := s.pendingMoves ++ [(player, sm)] } ∧
          s2.updates = s.updates) := by
  have hkeys : player ∉ s.pendingMoves.map Prod.fst := lookup_eq_none_iff.mp hnew
  have hnodup : ((s.pendingMoves ++ [(player, sm)]).map Prod.fst).Nodup := by
    rw [List.map_append]
    refine List.nodup_append.mpr ⟨hinv.1, List.nodup_singleton _, ?_⟩
    intro a ha hb2
    simp only [List.map_cons, List.map_nil, List.mem_singleton] at hb2
    exact hkeys (hb2 ▸ ha)
  have hsub : ∀ a ∈ (s.pendingMoves ++ [(player, sm)]).map Prod.fst,
      a ∈ getPlayersToPlay s := by
    intro a ha
    rw [List.map_append] at ha
    rcases List.mem_append.mp ha with ha | ha
    · exact hinv.2 a ha
    · simp only [List.map_cons, List.map_nil, List.mem_singleton] at ha
      exact ha ▸ hmem
  have hiff := length_eq_iff_mem_eq hnodup (getPlayersToPlay_nodup s) hsub
  rw [List.length_map] at hiff
  rw [playMove_validated impl s move player sm hstarted hmem hnew hsan hleg]
  by_cases h4 :
      (getPlayersToPlay s).length = (s.pendingMoves ++ [(player, sm)]).length
  · rw [if_pos h4]
    refine ⟨_, true, rfl, ?_, fun _ => rfl, ?_⟩
    · simp only [true_iff]
      exact hiff.mp h4.symm
    · intro hb; exact nomatch hb
  · rw [if_neg h4]
    refine ⟨_, false, rfl, ?_, ?_, fun _ => ⟨rfl, rfl⟩⟩
    · constructor
      · intro hb; exact nomatch hb
      · intro hmemeq
        exact absurd (hiff.mpr hmemeq).symm h4
    · intro hb; exact nomatch hb

/-- Witness for C1: in the started dice game (3 players, seed `"test_seed"`)
the sole required player 0 submits a valid move; the call passes validation,
resolves the turn and the characterization of `claim1_resolution` holds. -/
theorem claim1_witness :
    (EngineInvariant simpleStartedState ∧
      simpleStartedState.updates ≠ [] ∧
      (0 : Player) ∈ getPlayersToPlay simpleStartedState) ∧
    (∃ s2 b, playMove simpleImpl simpleStartedState ⟨"even", none⟩ 0 =
        .ok (s2, b) ∧
      (b = true ↔ ∀ q,
        q ∈ (simpleStartedState.pendingMoves ++
          [((0 : Player), (⟨"even", none⟩ : SimpleMove))]).map Prod.fst ↔
          q ∈ getPlayersToPlay simpleStartedState) ∧
      (b = true →
        s2 = ⟨(simpleImpl.processTurn simpleStartedState.game
            (simpleStartedState.pendingMoves ++ [(0, ⟨"even", none⟩)])).1,
          [], simpleStartedState.updates ++ [attachIfOver simpleImpl
            (simpleImpl.processTurn simpleStartedState.game
              (simpleStartedState.pendingMoves ++ [(0, ⟨"even", none⟩)])).1
            (simpleImpl.processTurn simpleStartedState.game
              (simpleStartedState.pendingMoves ++ [(0, ⟨"even", none⟩)])).2]⟩) ∧
      (b = false →
        s2 = { simpleStartedState with
          pendingMoves := simpleStartedState.pendingMoves ++
            [(0, ⟨"even", none⟩)] } ∧
          s2.updates = simpleStartedState.updates)) :=
  ⟨⟨by decide, by decide, by decide⟩,
    claim1_resolution simpleImpl simpleStartedState ⟨"even", none⟩ 0
      ⟨"even", none⟩ (by decide) (by decide) (by decide) (by decide)
      (by decide) (by decide)⟩

/-- Claim C2: `playMove` performs its four eligibility checks in the fixed
source order, each failing check raising `OutOfTurnError` — (1) game started,
(2) latest `toPlay` non-empty, (3) `player` a member of the current `toPlay`
set, (4) no move already buffered for `player`.  The statement holds for an
arbitrary `impl`, in particular for arbitrary `sanitizeMove` and
`assertMoveIsLegal`, so the failing checks short-circuit before sanitization
or legality run.  The last conjunct is terminal stability: from a terminal
state (empty `toPlay`) no sequence of operations changes the state at all,
so every subsequent `playMove` fails and the history never grows. -/
theorem claim2_check_order (impl : GameImpl O G M PU PR)
    (s : EngineState G M PU PR) (move : M) (player : Player) :
    (s.updates = [] → playMove impl s move player =
      .error (.outOfTurn player "The game hasn't started yet")) ∧
    (s.updates ≠ [] → getPlayersToPlay s = [] →
      playMove impl s move player =
        .error (.outOfTurn player "The game is already over")) ∧
    (s.updates ≠ [] → getPlayersToPlay s ≠ [] →
      player ∉ getPlayersToPlay s →
      playMove impl s move player =
        .error (.outOfTurn player "No legal moves this turn for this player")) ∧
    (s.updates ≠ [] → player ∈ getPlayersToPlay s →
      (s.pendingMoves.lookup player).isSome →
      playMove impl s move player =
        .error (.outOfTurn player "Player has already played this turn")) ∧
    (Terminal s → ∀ ops, runOps impl s ops = s) :=
  ⟨playMove_not_started impl s move player,
    playMove_over impl s move player,
    playMove_not_member impl s move player,
    playMove_already_played impl s move player,
    fun ht ops => terminal_runOps impl s ops ht⟩

/-- A terminal engine state for the dice game: the latest update's `toPlay`
is empty. -/
def simpleTerminalState :
    EngineState SimpleState SimpleMove SimplePublicUpdate SimplePrivateUpdate :=
  ⟨mkSimpleState simpleSanitized, [],
    [{ publicInfo := ⟨none, none, none⟩, toPlay := [], winners := some [0],
       privateInfo := none }]⟩

/-- The engine state of a freshly constructed, unstarted dice game. -/
def simpleUnstarted :
    EngineState SimpleState SimpleMove SimplePublicUpdate SimplePrivateUpdate :=
  mkEngineState (mkSimpleState simpleSanitized)

/-- Witness for C2: before `start`, `playMove` fails with the first check's
error; and from a terminal state a sequence of operations (a `start` and two
`playMove`s) leaves the state untouched. -/
theorem claim2_witness :
    (simpleUnstarted.updates = [] ∧
      playMove simpleImpl simpleUnstarted ⟨"even", none⟩ 0 =
        .error (.outOfTurn 0 "The game hasn't started yet")) ∧
    (Terminal simpleTerminalState ∧
      runOps simpleImpl simpleTerminalState
        [.start "test_seed", .play ⟨"even", none⟩ 0, .play ⟨"odd", none⟩ 1] =
        simpleTerminalState) :=
  ⟨⟨rfl, (claim2_check_order simpleImpl simpleUnstarted ⟨"even", none⟩ 0).1 rfl⟩,
    ⟨by decide, (claim2_check_order simpleImpl simpleTerminalState
        ⟨"even", none⟩ 0).2.2.2.2 (by decide) _⟩⟩

/-- Claim C3: every failing `playMove` call leaves the instance — in
particular the pending buffer and the history — exactly as it was (the first
conjunct: the state a caller continues with after catching the error is `s`
itself), and a subsequent valid submission by the same player in the same
turn succeeds normally (the second conjunct). -/
theorem claim3_failure_no_mutation (impl : GameImpl O G M PU PR)
    (s : EngineState G M PU PR) (badMove goodMove : M) (player : Player)
    (sm : M) (e : GameError M)
    (hfail : playMove impl s badMove player = .error e)
    (hstarted : s.updates ≠ [])
    (hmem : player ∈ getPlayersToPlay s)
    (hnew : s.pendingMoves.lookup player = none)
    (hsan : impl.sanitizeMove goodMove = .ok sm)
    (hleg : impl.assertMoveIsLegal s.game sm player = .ok ()) :
    applyOp impl s (.play badMove player) = s ∧
    ∃ s2 b, playMove impl s goodMove player = .ok (s2, b) := by
  constructor
  · rw [applyOp, hfail]
  · rw [playMove_validated impl s goodMove player sm hstarted hmem hnew
      hsan hleg]
    by_cases h4 : (getPlayersToPlay s).length =
        (s.pendingMoves ++ [(player, sm)]).length
    · rw [if_pos h4]; exact ⟨_, true, rfl⟩
    · rw [if_neg h4]; exact ⟨_, false, rfl⟩

/-- Witness for C3: in the started dice game, `{guess:"neither"}` fails
sanitization with `InvalidMoveError`; the caller's state is unchanged and a
valid resubmission `{guess:"even"}` by the same player succeeds. -/
theorem claim3_witness :
    playMove simpleImpl simpleStartedState ⟨"neither", none⟩ 0 =
      .error (.invalidMove ⟨"neither", none⟩
        "move does not contain an even/odd guess") ∧
    (applyOp simpleImpl simpleStartedState (.play ⟨"neither", none⟩ 0) =
        simpleStartedState ∧
      ∃ s2 b, playMove simpleImpl simpleStartedState ⟨"even", none⟩ 0 =
        .ok (s2, b)) :=
  ⟨by decide,
    claim3_failure_no_mutation simpleImpl simpleStartedState ⟨"neither", none⟩
      ⟨"even", none⟩ 0 ⟨"even", none⟩
      (.invalidMove ⟨"neither", none⟩ "move does not contain an even/odd guess")
      (by decide) (by decide) (by decide) (by decide) (by decide) (by decide)⟩

/-- Counterexample to C4 as stated: on a freshly constructed, unstarted game
the code's `getAllUpdates` does not fail — it returns the empty history —
whereas the spec-modelled fallible accessor (`getAllUpdatesSpecced`, written
from the spec's words) fails with the lifecycle error.  The first conjunct
evaluates the code at the concrete input; the second shows what the claim
predicted instead. -/
theorem claim4_counterexample :
    getAllUpdates simpleUnstarted = [] ∧
    getAllUpdatesSpecced simpleUnstarted =
      .error (.lifecycle "Game hasn't started yet") :=
  ⟨rfl, rfl⟩

/-- Claim C4 as amended: `start` on a non-empty history always fails with the
lifecycle error and changes nothing, `getLatestUpdate` before `start` always
fails with the lifecycle error, and `getAllUpdates` before `start` succeeds,
returning the empty history. -/
theorem claim4_lifecycle (impl : GameImpl O G M PU PR)
    (s : EngineState G M PU PR) (seed : String) :
    (s.updates ≠ [] →
      start impl s seed = .error (.lifecycle "A game can only be started once") ∧
      applyOp impl s (.start seed) = s) ∧
    (s.updates = [] →
      getLatestUpdate (M := M) s = .error (.lifecycle "Game hasn't started yet") ∧
      getAllUpdates s = []) := by
  constructor
  · intro h
    refine ⟨start_already impl s seed h, ?_⟩
    rw [applyOp, start_already impl s seed h]
  · intro h
    constructor
    · rw [getLatestUpdate, h]; rfl
    · exact h

/-- Witness for the amended C4: a second `start` on the started dice game
fails and changes nothing; `getLatestUpdate` on the unstarted instance fails
while `getAllUpdates` returns `[]`. -/
theorem claim4_witness :
    (start simpleImpl simpleStartedState "other" =
        .error (.lifecycle "A game can only be started once") ∧
      applyOp simpleImpl simpleStartedState (.start "other") =
        simpleStartedState) ∧
    (getLatestUpdate (M := SimpleMove) simpleUnstarted =
        .error (.lifecycle "Game hasn't started yet") ∧
      getAllUpdates simpleUnstarted = []) :=
  ⟨(claim4_lifecycle simpleImpl simpleStartedState "other").1 (by decide),
    (claim4_lifecycle simpleImpl simpleUnstarted "other").2 rfl⟩

/-- Claim C5: the history is append-only (every operation sequence only ever
extends it; it never shrinks or reorders), the update appended by a
successful `start` is exactly the update produced by `initialize(seed)` (with
the engine's winner attachment applied to that same update), a `playMove`
returning `true` appends exactly the update returned by that call's
`processTurn` invocation on the full pending map (again the same update the
engine's winner attachment mutated in place) while clearing the buffer, and a
`playMove` returning `false` or failing leaves the history unchanged.
Together these pin the i-th history entry to the i-th `processTurn`
invocation's result, in call order, with entry 0 the initialization
result. -/
theorem claim5_history (impl : GameImpl O G M PU PR) :
    (∀ (s : EngineState G M PU PR) (ops : List (Op M)),
      ∃ t, (runOps impl s ops).updates = s.updates ++ t) ∧
    (∀ (s s2 : EngineState G M PU PR) (seed : String),
      start impl s seed = .ok s2 →
      s2.updates = [attachIfOver impl (impl.initGame s.game seed).1
        (impl.initGame s.game seed).2]) ∧
    (∀ (s s2 : EngineState G M PU PR) (move : M) (player : Player),
      playMove impl s move player = .ok (s2, true) →
      ∃ sm, impl.sanitizeMove move = .ok sm ∧
        s2.updates = s.updates ++ [attachIfOver impl
          (impl.processTurn s.game (s.pendingMoves ++ [(player, sm)])).1
          (impl.processTurn s.game (s.pendingMoves ++ [(player, sm)])).2] ∧
        s2.pendingMoves = []) ∧
    (∀ (s s2 : EngineState G M PU PR) (move : M) (player : Player),
      playMove impl s move player = .ok (s2, false) → s2.updates = s.updates) ∧
    (∀ (s : EngineState G M PU PR) (move : M) (player : Player)
      (e : GameError M), playMove impl s move player = .error e →
      (applyOp impl s (.play move player)).updates = s.updates) := by
  refine ⟨fun s ops => runOps_updates impl s ops, ?_, ?_, ?_, ?_⟩
  · intro s s2 seed h
    exact (start_ok_inv h).2 ▸ rfl
  · intro s s2 move player h
    obtain ⟨sm, hsan, hleg, hst, hmemp, hnew, hcase⟩ := playMove_ok_inv h
    rcases hcase with ⟨hb, hlen, rfl⟩ | ⟨hb, hlen, rfl⟩
    · exact ⟨sm, hsan, rfl, rfl⟩
    · exact nomatch hb
  · intro s s2 move player h
    obtain ⟨sm, hsan, hleg, hst, hmemp, hnew, hcase⟩ := playMove_ok_inv h
    rcases hcase with ⟨hb, hlen, rfl⟩ | ⟨hb, hlen, rfl⟩
    · exact nomatch hb
    · rfl
  · intro s move player e h
    rw [applyOp, h]

/-- Witness for C5: concrete instances of each conjunct in the dice game —
the two-move run only extends the history, the started state's single entry
is the initialization update, the resolving move by player 0 appends exactly
its `processTurn` result and clears the buffer, and a failing move leaves the
history unchanged. -/
theorem claim5_witness :
    (∃ t, (runOps simpleImpl simpleStartedState
      [.play ⟨"even", none⟩ 0, .play ⟨"odd", none⟩ 0]).updates =
        simpleStartedState.updates ++ t) ∧
    (simpleStartedState.updates = [attachIfOver simpleImpl
      (simpleImpl.initGame (mkSimpleState simpleSanitized) "test_seed").1
      (simpleImpl.initGame (mkSimpleState simpleSanitized) "test_seed").2]) ∧
    (∃ sm, simpleImpl.sanitizeMove ⟨"even", none⟩ = .ok sm ∧
      (applyOp simpleImpl simpleStartedState (.play ⟨"even", none⟩ 0)).updates =
        simpleStartedState.updates ++ [attachIfOver simpleImpl
          (simpleImpl.processTurn simpleStartedState.game
            (simpleStartedState.pendingMoves ++ [(0, sm)])).1
          (simpleImpl.processTurn simpleStartedState.game
            (simpleStartedState.pendingMoves ++ [(0, sm)])).2] ∧
      (applyOp simpleImpl simpleStartedState (.play ⟨"even", none⟩ 0)).pendingMoves = []) ∧
    (applyOp simpleImpl simpleStartedState (.play ⟨"neither", none⟩ 0)).updates =
      simpleStartedState.updates := by
  refine ⟨(claim5_history simpleImpl).1 simpleStartedState _, ?_, ?_, ?_⟩
  · exact (claim5_history simpleImpl).2.1
      (mkEngineState (mkSimpleState simpleSanitized)) simpleStartedState
      "test_seed" (by decide)
  · obtain ⟨sm, h1, h2, h3⟩ := (claim5_history simpleImpl).2.2.1
      simpleStartedState (applyOp simpleImpl simpleStartedState
        (.play ⟨"even", none⟩ 0)) ⟨"even", none⟩ 0 (by decide)
    exact ⟨sm, h1, h2, h3⟩
  · exact (claim5_history simpleImpl).2.2.2.2 simpleStartedState
      ⟨"neither", none⟩ 0 (.invalidMove ⟨"neither", none⟩
        "move does not contain an even/odd guess") (by decide)

/-- Claim C6: whenever the engine appends an update — in `start` or on a
resolving `playMove` — it invokes `getWinners` (on the game state the
producing call returned) and attaches the result as the update's `winners`
exactly when the update's `toPlay` is empty; when `toPlay` is non-empty the
appended update is exactly the producing call's update, with no winners
attached by the engine. -/
theorem claim6_winners (impl : GameImpl O G M PU PR) :
    (∀ (s s2 : EngineState G M PU PR) (seed : String),
      start impl s seed = .ok s2 →
      ∃ u, s2.updates = s.updates ++ [u] ∧
        ((impl.initGame s.game seed).2.toPlay = [] →
          u = { (impl.initGame s.game seed).2 with
            winners := some (impl.getWinners (impl.initGame s.game seed).1) }) ∧
        ((impl.initGame s.game seed).2.toPlay ≠ [] →
          u = (impl.initGame s.game seed).2)) ∧
    (∀ (s s2 : EngineState G M PU PR) (move : M) (player : Player),
      playMove impl s move player = .ok (s2, true) →
      ∃ sm, impl.sanitizeMove move = .ok sm ∧
      ∃ u, s2.updates = s.updates ++ [u] ∧
        ((impl.processTurn s.game (s.pendingMoves ++ [(player, sm)])).2.toPlay = [] →
          u = { (impl.processTurn s.game (s.pendingMoves ++ [(player, sm)])).2 with
            winners := some (impl.getWinners
              (impl.processTurn s.game (s.pendingMoves ++ [(player, sm)])).1) }) ∧
        ((impl.processTurn s.game (s.pendingMoves ++ [(player, sm)])).2.toPlay ≠ [] →
          u = (impl.processTurn s.game (s.pendingMoves ++ [(player, sm)])).2)) := by
  constructor
  · intro s s2 seed h
    obtain ⟨hu, rfl⟩ := start_ok_inv h
    refine ⟨_, by rw [hu]; rfl, ?_, ?_⟩
    · intro hempty
      exact attachIfOver_empty impl _ _ hempty
    · intro hne
      exact attachIfOver_nonempty impl _ _ hne
  · intro s s2 move player h
    obtain ⟨sm, hsan, hleg, hst, hmemp, hnew, hcase⟩ := playMove_ok_inv h
    rcases hcase with ⟨hb, hlen, rfl⟩ | ⟨hb, hlen, rfl⟩
    · refine ⟨sm, hsan, _, rfl, ?_, ?_⟩
      · intro hempty
        exact attachIfOver_empty impl _ _ hempty
      · intro hne
        exact attachIfOver_nonempty impl _ _ hne
    · exact nomatch hb

/-- Witness for C6: the dice game's start appends the initialization update
unchanged (its `toPlay` is non-empty, so the engine attaches no winners and
the appended update has `winners = none`). -/
theorem claim6_witness :
    (∃ u, simpleStartedState.updates = simpleUnstarted.updates ++ [u] ∧
      ((simpleImpl.initGame (mkSimpleState simpleSanitized) "test_seed").2.toPlay = [] →
        u = { (simpleImpl.initGame (mkSimpleState simpleSanitized) "test_seed").2 with
          winners := some (simpleImpl.getWinners
            (simpleImpl.initGame (mkSimpleState simpleSanitized) "test_seed").1) }) ∧
      ((simpleImpl.initGame (mkSimpleState simpleSanitized) "test_seed").2.toPlay ≠ [] →
        u = (simpleImpl.initGame (mkSimpleState simpleSanitized) "test_seed").2)) ∧
    (simpleImpl.initGame (mkSimpleState simpleSanitized) "test_seed").2.toPlay = [0] ∧
    (getLatestUpdate (M := SimpleMove) simpleStartedState).map
      (fun u => u.winners) = .ok none :=
  ⟨(claim6_winners simpleImpl).1 simpleUnstarted
      simpleStartedState "test_seed" (by decide),
    by decide, by decide⟩

/-- Claim C7: within a single turn whose `toPlay` set is `{A, B}` (pending
buffer empty at the turn's beginning), the resolved state is identical
regardless of the order in which A and B submit: either order buffers the
first move (`false`) and resolves on the second (`true`), `processTurn`
receives the full pair of sanitized moves, and — since the game's
`processTurn` does not depend on the submission order of the two entries,
the `hcomm` hypothesis — the final state, in particular the appended update,
is the same `sFinal` in both orders. -/
theorem claim7_order_independence (impl : GameImpl O G M PU PR)
    (s : EngineState G M PU PR) (A B : Player) (mA mB smA smB : M)
    (hAB : A ≠ B)
    (hstarted : s.updates ≠ [])
    (hpend : s.pendingMoves = [])
    (hA : A ∈ getPlayersToPlay s)
    (hB : B ∈ getPlayersToPlay s)
    (honly : ∀ q ∈ getPlayersToPlay s, q = A ∨ q = B)
    (hsanA : impl.sanitizeMove mA = .ok smA)
    (hsanB : impl.sanitizeMove mB = .ok smB)
    (hlegA : impl.assertMoveIsLegal s.game smA A = .ok ())
    (hlegB : impl.assertMoveIsLegal s.game smB B = .ok ())
    (hcomm : impl.processTurn s.game [(A, smA), (B, smB)] =
      impl.processTurn s.game [(B, smB), (A, smA)]) :
    ∃ s1 s2 sFinal,
      playMove impl s mA A = .ok (s1, false) ∧
      playMove impl s1 mB B = .ok (sFinal, true) ∧
      playMove impl s mB B = .ok (s2, false) ∧
      playMove impl s2 mA A = .ok (sFinal, true) := by
  have hmem2 : ∀ a, a ∈ getPlayersToPlay s ↔ a ∈ [A, B] := by
    intro a
    constructor
    · intro h
      rcases honly a h with rfl | rfl
      · exact List.mem_cons_self _ _
      · exact List.mem_cons_of_mem _ (List.mem_cons_self _ _)
    · intro h
      rcases List.mem_cons.mp h with rfl | h
      · exact hA
      · rcases List.mem_cons.mp h with rfl | h
        · exact hB
        · exact absurd h (List.not_mem_nil a)
  have hperm : (getPlayersToPlay s).Perm [A, B] :=
    (List.perm_ext_iff_of_nodup (getPlayersToPlay_nodup s)
      (by simp [hAB])).mpr hmem2
  have hlen : (getPlayersToPlay s).length = 2 := by
    simpa using hperm.length_eq
  -- First order: A then B.
  have hstepA := playMove_validated impl s mA A smA hstarted hA
    (by rw [hpend]; rfl) hsanA hlegA
  rw [hpend, hlen] at hstepA
  rw [if_neg (by simp)] at hstepA
  set s1 : EngineState G M PU PR :=
    { s with pendingMoves := [] ++ [(A, smA)] } with hs1
  have hs1u : s1.updates = s.updates := rfl
  have hstepB := playMove_validated impl s1 mB B smB
    (by rw [hs1u]; exact hstarted)
    (by rw [getPlayersToPlay_updates hs1u]; exact hB)
    (by rw [hs1]; simp [List.lookup, beq_false_of_ne (Ne.symm hAB)])
    hsanB hlegB
  rw [getPlayersToPlay_updates hs1u, hlen] at hstepB
  rw [if_pos (by rw [hs1]; simp)] at hstepB
  -- Second order: B then A.
  have hstepB2 := playMove_validated impl s mB B smB hstarted hB
    (by rw [hpend]; rfl) hsanB hlegB
  rw [hpend, hlen] at hstepB2
  rw [if_neg (by simp)] at hstepB2
  set s2 : EngineState G M PU PR :=
    { s with pendingMoves := [] ++ [(B, smB)] } with hs2
  have hs2u : s2.updates = s.updates := rfl
  have hstepA2 := playMove_validated impl s2 mA A smA
    (by rw [hs2u]; exact hstarted)
    (by rw [getPlayersToPlay_updates hs2u]; exact hA)
    (by rw [hs2]; simp [List.lookup, beq_false_of_ne hAB])
    hsanA hlegA
  rw [getPlayersToPlay_updates hs2u, hlen] at hstepA2
  rw [if_pos (by rw [hs2]; simp)] at hstepA2
  refine ⟨s1, s2, _, hstepA, hstepB, hstepB2, ?_⟩
  rw [hstepA2]
  have harg : s2.pendingMoves ++ [(A, smA)] = [(B, smB), (A, smA)] := rfl
  have harg1 : s1.pendingMoves ++ [(B, smB)] = [(A, smA), (B, smB)] := rfl
  have hgame1 : s1.game = s.game := rfl
  have hgame2 : s2.game = s.game := rfl
  rw [harg, harg1, hgame1, hgame2, ← hcomm]

/-- The dice game after seed `"test_seed"` and two resolved turns by player
0: the third update's public rolls are `[6, 6, 1]`, so the current `toPlay`
set is `{0, 1}` and the pending buffer is empty. -/
def simpleTwoToPlayState :
    EngineState SimpleState SimpleMove SimplePublicUpdate SimplePrivateUpdate :=
  runOps simpleImpl simpleUnstarted
    [.start "test_seed", .play ⟨"even", none⟩ 0, .play ⟨"odd", none⟩ 0]

/-- Witness for C7: in the state with `toPlay = {0, 1}`, players 0 and 1
submit in either order; the turn resolves to the same final state. -/
theorem claim7_witness :
    ((0 : Player) ∈ getPlayersToPlay simpleTwoToPlayState ∧
      (1 : Player) ∈ getPlayersToPlay simpleTwoToPlayState ∧
      simpleTwoToPlayState.pendingMoves = [] ∧
      simpleImpl.processTurn simpleTwoToPlayState.game
          [(0, ⟨"even", none⟩), (1, ⟨"odd", none⟩)] =
        simpleImpl.processTurn simpleTwoToPlayState.game
          [(1, ⟨"odd", none⟩), (0, ⟨"even", none⟩)]) ∧
    (∃ s1 s2 sFinal,
      playMove simpleImpl simpleTwoToPlayState ⟨"even", none⟩ 0 =
        .ok (s1, false) ∧
      playMove simpleImpl s1 ⟨"odd", none⟩ 1 = .ok (sFinal, true) ∧
      playMove simpleImpl simpleTwoToPlayState ⟨"odd", none⟩ 1 =
        .ok (s2, false) ∧
      playMove simpleImpl s2 ⟨"even", none⟩ 0 = .ok (sFinal, true)) :=
  ⟨⟨by decide, by decide, by decide, by decide⟩,
    claim7_order_independence simpleImpl simpleTwoToPlayState 0 1
      ⟨"even", none⟩ ⟨"odd", none⟩ ⟨"even", none⟩ ⟨"odd", none⟩
      (by decide) (by decide) (by decide) (by decide) (by decide)
      (by decide) (by decide) (by decide) (by decide) (by decide) (by decide)⟩

/-- Claim C8, settled against the code: the `OutOfTurnError` raised by
`playMove` does not carry the submitted move.  `errors.ts` declares
`OutOfTurnError(move, player, reason)`, but `playMove` constructs every such
error with only two arguments, `(player, reason)` — so the error carries the
player id and the reason but no move (first conjunct, evaluating `playMove`
at a concrete out-of-turn input; the error type's `outOfTurn` constructor,
which mirrors what the throw site passes, has no move field).  By contrast a
sanitization failure does echo the offending raw move back (second
conjunct). -/
theorem claim8_outOfTurn_payload :
    playMove simpleImpl simpleUnstarted ⟨"even", none⟩ 0 =
      .error (.outOfTurn 0 "The game hasn't started yet") ∧
    playMove simpleImpl simpleStartedState ⟨"neither", some true⟩ 0 =
      .error (.invalidMove ⟨"neither", some true⟩
        "move does not contain an even/odd guess") :=
  ⟨rfl, by decide⟩

/-- Claim C9, settled against the code: the constructor computes
`numberOfPlayers` from the raw caller-supplied options, not from the
sanitized configuration.  With raw options `{numPlayers: 5/2}` the sanitized
configuration has `numPlayers = 2`, yet the constructed `numberOfPlayers` is
`5/2`, which differs from `numberOfPlayersForOptions` applied to the
sanitized configuration. -/
theorem claim9_raw_options :
    gameConstructor simpleImpl ⟨5/2, none⟩ =
      .ok ⟨⟨2, some 10⟩, 5/2⟩ ∧
    simpleImpl.numberOfPlayersForOptions ⟨(2 : ℚ), some 10⟩ = 2 ∧
    (5/2 : ℚ) ≠ 2 := by
  have h52 : jsFloor (5/2 : ℚ) = 2 := by norm_num [jsFloor]
  have h : simpleImpl.sanitizeOptions ⟨5/2, none⟩ =
      .ok { numPlayers := 2, numPoints := some 10 } := by
    show simpleSanitizeOptions _ = _
    rw [simpleSanitizeOptions, if_neg (by norm_num), h52]
  refine ⟨?_, rfl, by norm_num⟩
  rw [gameConstructor, h]
  rfl

/-- Claim C10: the engine treats the latest update's `toPlay` sequence as a
set of distinct players — `getPlayersToPlay` of a state whose latest
`toPlay` is `[p, p]` is the singleton `[p]`, membership in it agrees with
membership in the raw sequence, and a single valid `playMove` by `p`
resolves the turn (returns `true`). -/
theorem claim10_duplicate_toPlay (impl : GameImpl O G M PU PR)
    (s : EngineState G M PU PR) (u : Update PU PR) (p : Player) (move sm : M)
    (hlast : s.updates.getLast? = some u)
    (hdup : u.toPlay = [p, p])
    (hpend : s.pendingMoves = [])
    (hsan : impl.sanitizeMove move = .ok sm)
    (hleg : impl.assertMoveIsLegal s.game sm p = .ok ()) :
    getPlayersToPlay s = [p] ∧
    (∀ q, q ∈ getPlayersToPlay s ↔ q ∈ u.toPlay) ∧
    ∃ s2, playMove impl s move p = .ok (s2, true) := by
  have hgpp : getPlayersToPlay s = [p] := by
    rw [getPlayersToPlay]
    simp only [hlast]
    rw [hdup]
    simp [jsSet, jsSetAux]
  have hstarted : s.updates ≠ [] := by
    intro hc; rw [hc] at hlast; cases hlast
  refine ⟨hgpp, ?_, ?_⟩
  · intro q
    rw [hgpp, hdup]
    simp
  · have hstep := playMove_validated impl s move p sm hstarted
      (by rw [hgpp]; exact List.mem_cons_self _ _)
      (by rw [hpend]; rfl) hsan hleg
    rw [hpend, hgpp] at hstep
    rw [if_pos (by simp)] at hstep
    exact ⟨_, hstep⟩

/-- A handcrafted dice-game engine state whose latest update lists player 0
twice in `toPlay`. -/
def dupToPlayState :
    EngineState SimpleState SimpleMove SimplePublicUpdate SimplePrivateUpdate :=
  ⟨mkSimpleState simpleSanitized, [],
    [{ publicInfo := ⟨none, none, none⟩, toPlay := [0, 0], winners := none,
       privateInfo := none }]⟩

/-- Witness for C10: in the state with `toPlay = [0, 0]`, the `toPlay` set is
`{0}` and a single valid move by player 0 resolves the turn. -/
theorem claim10_witness :
    getPlayersToPlay dupToPlayState = [0] ∧
    (∀ q, q ∈ getPlayersToPlay dupToPlayState ↔
      q ∈ ([0, 0] : List Player)) ∧
    ∃ s2, playMove simpleImpl dupToPlayState ⟨"even", none⟩ 0 = .ok (s2, true) :=
  claim10_duplicate_toPlay simpleImpl dupToPlayState
    { publicInfo := ⟨none, none, none⟩, toPlay := [0, 0], winners := none,
      privateInfo := none } 0 ⟨"even", none⟩ ⟨"even", none⟩
    (by decide) rfl rfl (by decide) (by decide)

end TBG
